import Mathlib

/-!
Verification of the Voifodas server core (src/server.py): the session-scoped
conversational context engine.  The definitions below are a shallow embedding
of the Python handlers: the global `conversations` dict becomes an explicit
association-list `Store` threaded through each handler, the Groq streaming
capability becomes an abstract outcome (`CapStream` / `CapSingle`), and the
server-sent-event frames become the inductive `Frame`.
-/

namespace Voifodas

/-- A chat message as stored in a session history: the Python dict with a
`role` key ("user" / "assistant" / "system") and a `content` key. -/
structure Message where
  role : String
  content : String
deriving DecidableEq, Repr

/-- The history window: server.py keeps only the last 10 messages of a
session (`if len(conversations[session_id]) > 10`). -/
def W : Nat := 10

/-- `conversations[session_id] = conversations[session_id][-10:]` guarded by
`len > 10` (server.py lines 409-410).  A Python slice `h[-10:]` is
`h.drop (h.length - 10)`. -/
def truncateHist (h : List Message) : List Message :=
  if h.length > W then h.drop (h.length - W) else h

/-- The user-message append of `chat_stream` (server.py lines 403-410):
append the user message, then truncate to the window. -/
def appendUserTrunc (h : List Message) (msg : String) : List Message :=
  truncateHist (h ++ [Message.mk "user" msg])

/-- One server-sent event frame: a JSON payload with exactly one of the keys
`content`, `done`, or `error` (server.py lines 441, 449, 453). -/
inductive Frame where
  | content (s : String)
  | done
  | error (msg : String)
deriving DecidableEq, Repr

/-- Outcome of the streaming generation capability
(`client.chat.completions.create(..., stream=True)`): either the full list of
chunk contents (`delta.content`, possibly `None`), or the chunks delivered
before the capability raised, together with the exception text. -/
inductive CapStream where
  | success (chunks : List (Option String))
  | failure (pre : List (Option String)) (msg : String)
deriving DecidableEq, Repr

/-- The chunk loop of `generate` (server.py lines 437-441): for each chunk,
if `chunk.choices[0].delta.content` is truthy (not `None`, not the empty
string) it is emitted as a `content` frame and appended to `full_response`;
otherwise it is skipped.  Returns the emitted frames and the accumulated
text. -/
def processChunks : List (Option String) → List Frame × String
  | [] => ([], "")
  | none :: cs => processChunks cs
  | some s :: cs =>
    let r := processChunks cs
    if s = "" then r else (Frame.content s :: r.1, s ++ r.2)

/-- The chunk contents that survive the truthiness filter of the loop:
`None` and `""` are skipped, everything else kept in order. -/
def nonEmptyChunks : List (Option String) → List String
  | [] => []
  | none :: cs => nonEmptyChunks cs
  | some s :: cs => if s = "" then nonEmptyChunks cs else s :: nonEmptyChunks cs

/-- Left-to-right concatenation of a list of strings
(`full_response += content`). -/
def concatAll : List String → String
  | [] => ""
  | s :: rest => s ++ concatAll rest

/-- The inner generator `generate` of `chat_stream` (server.py lines
424-453), run to exhaustion against a capability outcome: on success it
emits the content frames, appends one assistant message holding the
accumulated text to the history, and emits the `done` frame; if the
capability raises, the frames emitted so far stand, no assistant message is
appended, and one `error` frame is emitted instead of `done`. -/
def generate (hist : List Message) (cap : CapStream) : List Frame × List Message :=
  match cap with
  | CapStream.success chunks =>
      ((processChunks chunks).1 ++ [Frame.done],
       hist ++ [Message.mk "assistant" ((processChunks chunks).2)])
  | CapStream.failure pre e =>
      ((processChunks pre).1 ++ [Frame.error e], hist)

/-- The global `conversations` dict: session key to message history, in
insertion order. -/
abbrev Store := List (String × List Message)

/-- Python dict lookup `conversations[session_id]`. -/
def lookupStore : Store → String → Option (List Message)
  | [], _ => none
  | (k, v) :: rest, sid => if k = sid then some v else lookupStore rest sid

/-- Python dict assignment `conversations[session_id] = v`: replaces in
place when the key exists, appends a new entry otherwise. -/
def setStore : Store → String → List Message → Store
  | [], sid, v => [(sid, v)]
  | (k, w) :: rest, sid, v =>
      if k = sid then (sid, v) :: rest else (k, w) :: setStore rest sid v

/-- `if session_id not in conversations: conversations[session_id] = []`
followed by a read: the session history, empty when absent (server.py lines
400-401). -/
def getHist (conv : Store) (sid : String) : List Message :=
  (lookupStore conv sid).getD []

/-- The `/chat/stream` handler (server.py lines 385-462) over the request
fields and the capability outcome, returning the emitted frames and the
updated store.  An empty message takes the early-return branch whose
`Response` wraps a generator over the empty list `[]`, so it emits no frame
at all and never touches the store or the capability. -/
def chat_stream (conv : Store) (msg sid : String) (cap : CapStream) :
    List Frame × Store :=
  if msg = "" then ([], conv)
  else
    let h1 := appendUserTrunc (getHist conv sid) msg
    let fr := generate h1 cap
    (fr.1, setStore conv sid fr.2)

/-- A minimal JSON value, enough to render the response bodies the handlers
build with `jsonify` and plain dict returns. -/
inductive Json where
  | str (s : String)
  | num (n : Nat)
  | obj (fields : List (String × Json))
  | arr (items : List Json)

/-- Python `s.lower()`, character by character (all the handler's keyword
tests are ASCII). -/
def pyLower (s : String) : String := String.mk (s.data.map Char.toLower)

/-- Python slice `s[:n]`: the first `n` characters. -/
def strTake (s : String) (n : Nat) : String := String.mk (s.data.take n)

/-- Whether `needle` occurs at the head of `hay`. -/
def leadMatch : List Char → List Char → Bool
  | [], _ => true
  | _ :: _, [] => false
  | a :: as, b :: bs => a == b && leadMatch as bs

/-- Whether `needle` occurs anywhere in `hay`. -/
def subSearch (needle : List Char) : List Char → Bool
  | [] => leadMatch needle []
  | c :: cs => leadMatch needle (c :: cs) || subSearch needle cs

/-- Python substring test `needle in hay`. -/
def hasSub (hay needle : String) : Bool := subSearch needle.data hay.data

/-- The suggestion classifier of `/auto-suggest` (server.py lines 362-370):
`lower_text = response_text.lower()[:100]`, then ordered rules over
`lower_text` and the raw combined context. -/
def detect_type (response_text context : String) : String :=
  let lower_text := strTake (pyLower response_text) 100
  if hasSub context "?" || hasSub lower_text "question" then "question"
  else if hasSub lower_text "code" || hasSub lower_text "error" ||
      hasSub lower_text "function" then "code"
  else if hasSub lower_text "action" || hasSub lower_text "todo" ||
      hasSub lower_text "should" then "action"
  else "insight"

/-- The classifier exactly as the specification words it (spec section 4.5):
ordered rules over the lower-cased leading portion (first 100 characters) of
the suggestion text and the raw source context. -/
def specClassify (s c : String) : String :=
  let lead := pyLower (strTake s 100)
  if hasSub c "?" || hasSub lead "question" then "question"
  else if hasSub lead "code" || hasSub lead "error" ||
      hasSub lead "function" then "code"
  else if hasSub lead "action" || hasSub lead "todo" ||
      hasSub lead "should" then "action"
  else "insight"

/-- Outcome of the single-shot generation capability
(`client.chat.completions.create` without streaming): a completed text or a
raised exception's text. -/
inductive CapSingle where
  | ok (text : String)
  | err (msg : String)

/-- The `/auto-suggest` handler (server.py lines 317-382) over the request
fields and the capability outcome, returning the response body and status.
The except clause on line 382 is `jsonify` applied to the error dict AND the
number 500 as two positional arguments, which Flask renders as the JSON
array of both with the default 200 status. -/
def auto_suggest (transcript screen pb_name pb_system pb_context : String)
    (cap : CapSingle) : Json × Nat :=
  if transcript = "" && screen = "" then
    (Json.obj [("error", Json.str "No context provided")], 400)
  else
    let context :=
      (if screen = "" then "" else "[SCREEN]: " ++ strTake screen 1000 ++ "\n\n")
      ++ (if transcript = "" then "" else "[AUDIO]: " ++ strTake transcript 1000)
    match cap with
    | CapSingle.ok response_text =>
        (Json.obj [("suggestion", Json.str response_text),
                   ("detected_type", Json.str (detect_type response_text context)),
                   ("status", Json.str "success")], 200)
    | CapSingle.err e =>
        (Json.arr [Json.obj [("error", Json.str e)], Json.num 500], 200)

/-- What `/analyze-context` does before/at the capability call: either the
early 400 error response, or the request it issues to the capability (the
system message and the composed user prompt). -/
inductive AnalyzeOutcome where
  | errResp (body : Json) (status : Nat)
  | capRequest (system_msg user_msg : String)

/-- The `/analyze-context` handler (server.py lines 238-307) up to the
generation-capability call: the guard on lines 252-253 rejects a request
whose screen and transcript contexts are both empty with a 400 error before
any capability call; otherwise the composed prompt is sent. -/
def analyze_context (screen_context transcript_context question pb_name
    pb_system pb_context : String) : AnalyzeOutcome :=
  if screen_context = "" && transcript_context = "" then
    AnalyzeOutcome.errResp (Json.obj [("error", Json.str "No context provided")]) 400
  else
    let context_parts :=
      (if screen_context = "" then []
       else ["**Screen Content (OCR):**\n" ++ strTake screen_context 2000])
      ++ (if transcript_context = "" then []
       else ["**Live Transcript (Audio):**\n" ++ strTake transcript_context 2000])
    let full_context := String.intercalate "\n\n" context_parts
    let user_prompt :=
      if question = "" then
        pb_context ++ "\n\n" ++ full_context ++
          "\n\n---\nAnalyze this context and provide:\n1. A brief summary of what's happening\n2. Key insights or action items\n3. Helpful suggestions based on the "
          ++ pb_name ++ " scenario\n\nBe concise and actionable."
      else
        pb_context ++ "\n\n" ++ full_context ++ "\n\n---\nUser's Question: "
          ++ question ++ "\n\nProvide a helpful, concise answer based on the context above."
    AnalyzeOutcome.capRequest pb_system user_prompt

/-- The fixed quick-action templates with the summarize fallback
(`prompts.get(action, prompts['summarize'])`, server.py lines 475-480). -/
def quick_prompts (action text : String) : String :=
  if action = "summarize" then "Summarize this text concisely:\n\n" ++ text
  else if action = "translate" then "Translate this text to English:\n\n" ++ text
  else if action = "explain" then "Explain this in simple terms:\n\n" ++ text
  else if action = "code" then "Explain this code:\n\n" ++ text
  else "Summarize this text concisely:\n\n" ++ text

/-- The `/chat/quick` handler (server.py lines 465-497) over the request
fields and the capability outcome, with the session store threaded through
to record that the handler never reads or writes it. -/
def quick_action (conv : Store) (action text : String) (cap : CapSingle) :
    Json × Nat × Store :=
  if text = "" then (Json.obj [("error", Json.str "No text provided")], 400, conv)
  else
    match cap with
    | CapSingle.ok t => (Json.obj [("response", Json.str t)], 200, conv)
    | CapSingle.err e => (Json.obj [("error", Json.str e)], 500, conv)

/-- The `/history/clear` handler (server.py lines 500-510):
`if session_id in conversations: conversations[session_id] = []`.  The key
stays in the dict; only its history is reset. -/
def clear_history (conv : Store) (sid : String) : Store :=
  match lookupStore conv sid with
  | some _ => setStore conv sid []
  | none => conv

/-- The `/maintenance/cleanup` handler (server.py lines 513-519):
`count = len(conversations); conversations.clear()`. -/
def cleanup_sessions (conv : Store) : Nat × Store :=
  (conv.length, [])

/-- One full `/chat/stream` call as it acts on a single session's history,
with a non-empty check mirroring the handler's early return: append the user
message with truncation, then run the generator against the capability
outcome. -/
def chatCall (h : List Message) (msg : String) (cap : CapStream) : List Message :=
  if msg = "" then h
  else (generate (appendUserTrunc h msg) cap).2

/-- A sequence of chat calls against one session, starting from a given
history. -/
def runFlow : List Message → List (String × CapStream) → List Message
  | h, [] => h
  | h, (msg, cap) :: rest => runFlow (chatCall h msg cap) rest

/-- The messages one chat call appends to the session: the user message,
and on success the assistant message holding the accumulated text. -/
def callAppends (msg : String) (cap : CapStream) : List Message :=
  if msg = "" then []
  else
    Message.mk "user" msg ::
      (match cap with
       | CapStream.success chunks =>
           [Message.mk "assistant" ((processChunks chunks).2)]
       | CapStream.failure _ _ => [])

/-- All messages a sequence of chat calls appends, in order. -/
def flowAppends : List (String × CapStream) → List Message
  | [] => []
  | (msg, cap) :: rest => callAppends msg cap ++ flowAppends rest

/-! ### Helper lemmas -/

lemma processChunks_fst (cs : List (Option String)) :
    (processChunks cs).1 = (nonEmptyChunks cs).map Frame.content := by
  induction cs with
  | nil => rfl
  | cons c rest ih =>
    cases c with
    | none => simpa [processChunks, nonEmptyChunks] using ih
    | some s =>
      by_cases hs : s = "" <;>
        simp [processChunks, nonEmptyChunks, hs, ih]

lemma processChunks_snd (cs : List (Option String)) :
    (processChunks cs).2 = concatAll (nonEmptyChunks cs) := by
  induction cs with
  | nil => rfl
  | cons c rest ih =>
    cases c with
    | none => simpa [processChunks, nonEmptyChunks] using ih
    | some s =>
      by_cases hs : s = "" <;>
        simp [processChunks, nonEmptyChunks, concatAll, hs, ih]

lemma nonEmptyChunks_all_ne (cs : List (Option String)) :
    (nonEmptyChunks cs).all (fun s => s != "") = true := by
  induction cs with
  | nil => rfl
  | cons c rest ih =>
    cases c with
    | none => simpa [nonEmptyChunks] using ih
    | some s =>
      by_cases hs : s = "" <;> simp [nonEmptyChunks, hs, ih]

/-- The texts of the content frames of a frame list, in order. -/
def contentTexts : List Frame → List String
  | [] => []
  | Frame.content s :: fs => s :: contentTexts fs
  | Frame.done :: fs => contentTexts fs
  | Frame.error _ :: fs => contentTexts fs

/-- The number of `done` frames in a frame list. -/
def countDone : List Frame → Nat
  | [] => 0
  | Frame.done :: fs => countDone fs + 1
  | Frame.content _ :: fs => countDone fs
  | Frame.error _ :: fs => countDone fs

/-- The number of `error` frames in a frame list. -/
def countError : List Frame → Nat
  | [] => 0
  | Frame.error _ :: fs => countError fs + 1
  | Frame.content _ :: fs => countError fs
  | Frame.done :: fs => countError fs

lemma contentTexts_append (a b : List Frame) :
    contentTexts (a ++ b) = contentTexts a ++ contentTexts b := by
  induction a with
  | nil => rfl
  | cons f fs ih => cases f <;> simp [contentTexts, ih]

lemma contentTexts_map_content (l : List String) :
    contentTexts (l.map Frame.content) = l := by
  induction l with
  | nil => rfl
  | cons s rest ih => simp [contentTexts, ih]

lemma countDone_append (a b : List Frame) :
    countDone (a ++ b) = countDone a + countDone b := by
  induction a with
  | nil => simp [countDone]
  | cons f fs ih => cases f <;> simp [countDone, ih] <;> omega

lemma countError_append (a b : List Frame) :
    countError (a ++ b) = countError a + countError b := by
  induction a with
  | nil => simp [countError]
  | cons f fs ih => cases f <;> simp [countError, ih] <;> omega

lemma countDone_map_content (l : List String) :
    countDone (l.map Frame.content) = 0 := by
  induction l with
  | nil => rfl
  | cons s rest ih => simpa [countDone] using ih

lemma countError_map_content (l : List String) :
    countError (l.map Frame.content) = 0 := by
  induction l with
  | nil => rfl
  | cons s rest ih => simpa [countError] using ih

lemma concat_contentTexts_processChunks (cs : List (Option String)) :
    concatAll (contentTexts (processChunks cs).1) = (processChunks cs).2 := by
  rw [processChunks_fst, contentTexts_map_content, processChunks_snd]

lemma lookupStore_setStore_self (conv : Store) (k : String) (v : List Message) :
    lookupStore (setStore conv k v) k = some v := by
  induction conv with
  | nil => simp [setStore, lookupStore]
  | cons kv rest ih =>
    obtain ⟨k1, v1⟩ := kv
    by_cases h : k1 = k <;> simp [setStore, lookupStore, h, ih]

lemma setStore_length_of_lookup (conv : Store) (k : String) (v v1 : List Message)
    (h : lookupStore conv k = some v1) :
    (setStore conv k v).length = conv.length := by
  induction conv with
  | nil => simp [lookupStore] at h
  | cons kv rest ih =>
    obtain ⟨k2, v2⟩ := kv
    by_cases hk : k2 = k
    · simp [setStore, hk]
    · simp [lookupStore, hk] at h
      simp [setStore, hk, ih h]

lemma truncateHist_suffix (h : List Message) : truncateHist h <:+ h := by
  unfold truncateHist
  split
  · exact List.drop_suffix _ _
  · exact List.suffix_refl _

lemma truncateHist_length (h : List Message) :
    (truncateHist h).length = min h.length W := by
  unfold truncateHist
  split
  · rw [List.length_drop]
    omega
  · omega

lemma appendUserTrunc_length (h : List Message) (msg : String) :
    (appendUserTrunc h msg).length = min (h.length + 1) W := by
  unfold appendUserTrunc
  rw [truncateHist_length]
  simp

lemma suffix_append_same {a b : List Message} (h : a <:+ b) (z : List Message) :
    a ++ z <:+ b ++ z := by
  obtain ⟨p, rfl⟩ := h
  exact ⟨p, by simp⟩

lemma appendUserTrunc_suffix (h t : List Message) (msg : String) (hs : h <:+ t) :
    appendUserTrunc h msg <:+ t ++ [Message.mk "user" msg] := by
  exact (truncateHist_suffix _).trans (suffix_append_same hs _)

/-- The invariant tying a session history to the full list of messages ever
appended to it: the history is a suffix of the appended messages, never
longer than `W + 1`, of exact length while few messages have been appended,
and at least `W` long once `W` messages have been appended. -/
def ChatInv (h t : List Message) : Prop :=
  h <:+ t ∧ h.length ≤ W + 1
  ∧ (t.length ≤ W → h.length = t.length)
  ∧ (W ≤ t.length → W ≤ h.length)

lemma chatCall_inv (msg : String) (cap : CapStream) (h t : List Message)
    (hinv : ChatInv h t) :
    ChatInv (chatCall h msg cap) (t ++ callAppends msg cap) := by
  obtain ⟨hsuf, hlen, hsmall, hbig⟩ := hinv
  by_cases hm : msg = ""
  · simpa [chatCall, callAppends, hm] using ⟨hsuf, hlen, hsmall, hbig⟩
  · cases cap with
    | success chunks =>
      have hcall : chatCall h msg (CapStream.success chunks)
          = appendUserTrunc h msg
            ++ [Message.mk "assistant" ((processChunks chunks).2)] := by
        simp [chatCall, hm, generate]
      have happ : callAppends msg (CapStream.success chunks)
          = [Message.mk "user" msg,
             Message.mk "assistant" ((processChunks chunks).2)] := by
        simp [callAppends, hm]
      rw [hcall, happ]
      have hlen1 : (appendUserTrunc h msg).length = min (h.length + 1) W :=
        appendUserTrunc_length h msg
      refine ⟨?_, ?_, ?_, ?_⟩
      · have h1 : appendUserTrunc h msg <:+ t ++ [Message.mk "user" msg] :=
          appendUserTrunc_suffix h t msg hsuf
        have h2 := suffix_append_same h1
          [Message.mk "assistant" ((processChunks chunks).2)]
        simpa using h2
      · simp only [List.length_append, List.length_cons, List.length_nil, hlen1]
        simp only [W] at *
        omega
      · intro ht
        simp only [List.length_append, List.length_cons, List.length_nil] at ht ⊢
        rw [hlen1]
        simp only [W] at *
        omega
      · intro ht
        simp only [List.length_append, List.length_cons, List.length_nil] at ht ⊢
        rw [hlen1]
        simp only [W] at *
        rcases Nat.le_total t.length 10 with h1 | h1
        · have := hsmall h1
          omega
        · have := hbig h1
          omega
    | failure pre e =>
      have hcall : chatCall h msg (CapStream.failure pre e)
          = appendUserTrunc h msg := by
        simp [chatCall, hm, generate]
      have happ : callAppends msg (CapStream.failure pre e)
          = [Message.mk "user" msg] := by
        simp [callAppends, hm]
      rw [hcall, happ]
      have hlen1 : (appendUserTrunc h msg).length = min (h.length + 1) W :=
        appendUserTrunc_length h msg
      refine ⟨appendUserTrunc_suffix h t msg hsuf, ?_, ?_, ?_⟩
      · rw [hlen1]
        simp only [W] at *
        omega
      · intro ht
        simp only [List.length_append, List.length_cons, List.length_nil] at ht ⊢
        rw [hlen1]
        simp only [W] at *
        omega
      · intro ht
        simp only [List.length_append, List.length_cons, List.length_nil] at ht ⊢
        rw [hlen1]
        simp only [W] at *
        rcases Nat.le_total t.length 10 with h1 | h1
        · have := hsmall h1
          omega
        · have := hbig h1
          omega

lemma runFlow_inv (calls : List (String × CapStream)) (h t : List Message)
    (hinv : ChatInv h t) :
    ChatInv (runFlow h calls) (t ++ flowAppends calls) := by
  induction calls generalizing h t with
  | nil => simpa [runFlow, flowAppends] using hinv
  | cons c rest ih =>
    obtain ⟨msg, cap⟩ := c
    have step := chatCall_inv msg cap h t hinv
    have := ih (chatCall h msg cap) (t ++ callAppends msg cap) step
    simpa [runFlow, flowAppends, List.append_assoc] using this

lemma chatInv_nil : ChatInv [] [] := by
  refine ⟨List.suffix_refl _, ?_, ?_, ?_⟩ <;> simp [W]

/-! ### Claim theorems -/

/-- C1, amended: across the full chat flow the stored history is always a
suffix of the appended messages in their original relative order (oldest
evicted first), its length never exceeds `W + 1`, it equals the number of
appended messages while that number is at most `W`, and after the next
user-message append-and-truncate step the length is exactly
`min (appended + 1) W`.  The claim's bound `W` itself fails because the
assistant-reply append is not followed by truncation (see the
counterexample). -/
theorem chat_flow_window (calls : List (String × CapStream)) :
    runFlow [] calls <:+ flowAppends calls
    ∧ (runFlow [] calls).length ≤ W + 1
    ∧ ((flowAppends calls).length ≤ W →
        (runFlow [] calls).length = (flowAppends calls).length)
    ∧ (∀ msg, (appendUserTrunc (runFlow [] calls) msg).length
        = min ((flowAppends calls).length + 1) W) := by
  have hinv := runFlow_inv calls [] [] chatInv_nil
  simp only [List.nil_append] at hinv
  obtain ⟨hsuf, hlen, hsmall, hbig⟩ := hinv
  refine ⟨hsuf, hlen, hsmall, ?_⟩
  intro msg
  rw [appendUserTrunc_length]
  simp only [W] at *
  rcases Nat.le_total (flowAppends calls).length 10 with h1 | h1
  · have := hsmall h1
    omega
  · have := hbig h1
    omega

/-- C1, counterexample: six successful chat calls append twelve messages,
and after the sixth assistant-reply append (which is not followed by
truncation) the stored history holds eleven messages, exceeding the window
`W = 10`. -/
theorem chat_flow_window_counterexample :
    W < (runFlow [] [("hi", CapStream.success [some "ok"]),
      ("hi", CapStream.success [some "ok"]),
      ("hi", CapStream.success [some "ok"]),
      ("hi", CapStream.success [some "ok"]),
      ("hi", CapStream.success [some "ok"]),
      ("hi", CapStream.success [some "ok"])]).length := by decide

/-- C1, witness: the amended theorem applied to one successful call, whose
two appended messages are fewer than the window. -/
theorem chat_flow_window_witness :
    (runFlow [] [("hi", CapStream.success [some "ok"])]).length
      = (flowAppends [("hi", CapStream.success [some "ok"])]).length :=
  (chat_flow_window [("hi", CapStream.success [some "ok"])]).2.2.1 (by decide)

/-- C2: for a non-empty message and a succeeding capability, the emitted
frames are the content frames followed by exactly one `done` frame (one
terminal marker, no `error` frame), the concatenation of the emitted content
texts equals the accumulated text, and that text is persisted as the single
new assistant message after the appended user message. -/
theorem chat_stream_success_stream (conv : Store) (msg sid : String)
    (chunks : List (Option String)) (hm : ¬ msg = "") :
    (chat_stream conv msg sid (CapStream.success chunks)).1
      = (processChunks chunks).1 ++ [Frame.done]
    ∧ concatAll (contentTexts (chat_stream conv msg sid (CapStream.success chunks)).1)
      = (processChunks chunks).2
    ∧ lookupStore (chat_stream conv msg sid (CapStream.success chunks)).2 sid
      = some (appendUserTrunc (getHist conv sid) msg
          ++ [Message.mk "assistant" ((processChunks chunks).2)])
    ∧ countDone (chat_stream conv msg sid (CapStream.success chunks)).1 = 1
    ∧ countError (chat_stream conv msg sid (CapStream.success chunks)).1 = 0 := by
  have h1 : chat_stream conv msg sid (CapStream.success chunks)
      = ((processChunks chunks).1 ++ [Frame.done],
         setStore conv sid (appendUserTrunc (getHist conv sid) msg
           ++ [Message.mk "assistant" ((processChunks chunks).2)])) := by
    simp [chat_stream, hm, generate]
  rw [h1]
  refine ⟨rfl, ?_, lookupStore_setStore_self _ _ _, ?_, ?_⟩
  · rw [contentTexts_append]
    show concatAll (contentTexts (processChunks chunks).1 ++ []) = _
    rw [List.append_nil, concat_contentTexts_processChunks]
  · rw [countDone_append, processChunks_fst, countDone_map_content]
    rfl
  · rw [countError_append, processChunks_fst, countError_map_content]
    rfl

/-- C2, witness: the theorem applied to a concrete call whose chunk list
holds one kept fragment and two skipped ones. -/
theorem chat_stream_success_stream_witness :
    lookupStore (chat_stream [] "hi" "s"
        (CapStream.success [some "a", none, some ""])).2 "s"
      = some (appendUserTrunc (getHist ([] : Store) "s") "hi"
          ++ [Message.mk "assistant" ((processChunks [some "a", none, some ""]).2)]) :=
  (chat_stream_success_stream [] "hi" "s" [some "a", none, some ""] (by decide)).2.2.1

/-- C3: for a non-empty message and a capability that raises (at call time,
`pre = []`, or mid-stream), the session ends holding exactly the pre-call
history plus the one appended user message — no assistant message — and the
frames end with exactly one `error` frame and no `done` frame. -/
theorem chat_stream_failure_stream (conv : Store) (msg sid : String)
    (pre : List (Option String)) (e : String) (hm : ¬ msg = "") :
    (chat_stream conv msg sid (CapStream.failure pre e)).1
      = (processChunks pre).1 ++ [Frame.error e]
    ∧ lookupStore (chat_stream conv msg sid (CapStream.failure pre e)).2 sid
      = some (appendUserTrunc (getHist conv sid) msg)
    ∧ countError (chat_stream conv msg sid (CapStream.failure pre e)).1 = 1
    ∧ countDone (chat_stream conv msg sid (CapStream.failure pre e)).1 = 0 := by
  have h1 : chat_stream conv msg sid (CapStream.failure pre e)
      = ((processChunks pre).1 ++ [Frame.error e],
         setStore conv sid (appendUserTrunc (getHist conv sid) msg)) := by
    simp [chat_stream, hm, generate]
  rw [h1]
  refine ⟨rfl, lookupStore_setStore_self _ _ _, ?_, ?_⟩
  · rw [countError_append, processChunks_fst, countError_map_content]
    rfl
  · rw [countDone_append, processChunks_fst, countDone_map_content]
    rfl

/-- C3, witness: the theorem applied to a concrete mid-stream failure. -/
theorem chat_stream_failure_stream_witness :
    lookupStore (chat_stream [] "hi" "s"
        (CapStream.failure [some "par"] "boom")).2 "s"
      = some (appendUserTrunc (getHist ([] : Store) "s") "hi") :=
  (chat_stream_failure_stream [] "hi" "s" [some "par"] "boom" (by decide)).2.1

/-- C4: an empty chat message takes the early-return branch, whose response
generator iterates over the empty list, so the stream holds zero frames of
any kind — in particular not the prepared error frame — the store is
untouched, and the result does not depend on the capability (no capability
call is made).  This contradicts the claim's single error frame. -/
theorem chat_stream_empty_message (conv : Store) (sid : String)
    (cap : CapStream) :
    chat_stream conv "" sid cap = ([], conv) := by
  simp [chat_stream]

/-- C5: the classifier agrees everywhere with the ordered rules as the
specification words them (so identical arguments always yield the identical
category, and rule order is respected), and a suggestion reading
"function failed" with no question mark in the context classifies as
`code`, not `insight`. -/
theorem detect_type_matches_spec :
    (∀ s c, detect_type s c = specClassify s c)
    ∧ (∀ c, hasSub c "?" = false →
        detect_type "function failed" c = "code") := by
  constructor
  · intro s c
    have h : strTake (pyLower s) 100 = pyLower (strTake s 100) := by
      simp only [strTake, pyLower]
      rw [List.map_take]
    simp only [detect_type, specClassify, h]
  · intro c hc
    have h2 : hasSub (strTake (pyLower "function failed") 100) "question" = false := by
      decide
    have h3 : hasSub (strTake (pyLower "function failed") 100) "code" = false := by
      decide
    have h4 : hasSub (strTake (pyLower "function failed") 100) "error" = false := by
      decide
    have h5 : hasSub (strTake (pyLower "function failed") 100) "function" = true := by
      decide
    simp [detect_type, hc, h2, h3, h4, h5]

/-- C5, witness: the rule-order part of the theorem applied to a concrete
question-mark-free context. -/
theorem detect_type_matches_spec_witness :
    detect_type "function failed" "we are deploying the release today" = "code" :=
  detect_type_matches_spec.2 "we are deploying the release today" (by decide)

/-- C6: a capability failure during `/auto-suggest` is caught, but the
except clause passes 500 as a second positional argument to `jsonify`, so
the response is the JSON array of the error object and the number 500,
delivered with the default 200 status — not a JSON object with an error
field under an error status as the claim states. -/
theorem auto_suggest_error_response_bug :
    auto_suggest "hello" "" "General" "You are a helpful AI assistant." ""
      (CapSingle.err "boom")
      = (Json.arr [Json.obj [("error", Json.str "boom")], Json.num 500], 200) := rfl

/-- C7: a context-analysis request whose screen and transcript contexts are
both empty is rejected with the 400 error body, whatever the question and
playbook fields, and the handler returns before issuing any
capability request. -/
theorem analyze_context_empty_no_call (q n s c : String) :
    analyze_context "" "" q n s c
      = AnalyzeOutcome.errResp
          (Json.obj [("error", Json.str "No context provided")]) 400 := rfl

/-- C8: a quick-action request with empty text fails with the 400 error
body, the result is the same for every capability outcome (no capability
call is made), and the session store is returned unchanged. -/
theorem quick_action_empty_text (conv : Store) (action : String)
    (cap : CapSingle) :
    quick_action conv action "" cap
      = (Json.obj [("error", Json.str "No text provided")], 400, conv) := rfl

/-- C9: clearing an existing session resets its history to the empty
sequence but keeps the session key in the store, so a later cleanup counts
the cleared-but-empty session exactly as before the clear. -/
theorem clear_keeps_key_counted (conv : Store) (sid : String)
    (h : List Message) (hfind : lookupStore conv sid = some h) :
    lookupStore (clear_history conv sid) sid = some []
    ∧ (cleanup_sessions (clear_history conv sid)).1
      = (cleanup_sessions conv).1 := by
  have hch : clear_history conv sid = setStore conv sid [] := by
    simp [clear_history, hfind]
  rw [hch]
  exact ⟨lookupStore_setStore_self _ _ _,
    setStore_length_of_lookup _ _ _ _ hfind⟩

/-- C9, witness: the theorem applied to a one-session store. -/
theorem clear_keeps_key_counted_witness :
    lookupStore (clear_history [("s", [Message.mk "user" "hi"])] "s") "s"
      = some []
    ∧ (cleanup_sessions (clear_history [("s", [Message.mk "user" "hi"])] "s")).1
      = (cleanup_sessions [("s", [Message.mk "user" "hi"])]).1 :=
  clear_keeps_key_counted [("s", [Message.mk "user" "hi"])] "s"
    [Message.mk "user" "hi"] (by decide)

/-- C10: the streaming loop emits a content frame and extends the
accumulator exactly for the fragments whose content is neither `None` nor
empty, in order; every kept fragment is non-empty; and on success the
persisted assistant message is the concatenation of exactly those
fragments. -/
theorem stream_fragments_nonempty (chunks : List (Option String))
    (h : List Message) :
    (processChunks chunks).1 = (nonEmptyChunks chunks).map Frame.content
    ∧ (processChunks chunks).2 = concatAll (nonEmptyChunks chunks)
    ∧ (nonEmptyChunks chunks).all (fun s => s != "") = true
    ∧ (generate h (CapStream.success chunks)).2
      = h ++ [Message.mk "assistant" (concatAll (nonEmptyChunks chunks))] := by
  refine ⟨processChunks_fst chunks, processChunks_snd chunks,
    nonEmptyChunks_all_ne chunks, ?_⟩
  simp [generate, processChunks_snd]

end Voifodas
